import Mathlib

set_option maxRecDepth 8000

/-!
Shallow embedding of the decision logic of `profit_blog.py` (class
`ProBlogBotV4`): title deduplication, related-post ranking, plan
post-processing, the length-gated critique/humanise stages, the image-marker
resolver and the publish step.

Modelling conventions:
* Python strings are modelled as Lean `String` / `List Char` over code
  points; `str.lower()` is modelled by the ASCII `Char.toLower` (the two
  coincide on ASCII text, which is what the program handles).
* The floating-point comparison `overlap / max(|A|, |B|) >= 0.7` is
  modelled by the exact rational comparison `7 * max <= 10 * overlap`.
  IEEE-754 double rounding is monotone and the nearest double to `0.7`
  lies within one ulp of it, so the two comparisons agree for all set
  sizes below `10^15`; keyword sets here are far smaller.
* External effects (model calls, HTTP requests, the Blogger API) are
  modelled as explicit outcome parameters (`Except`/`Option` values or
  oracles indexed by call number); the code driven by those outcomes is
  translated directly from the source.
-/

/-! ## Python string primitives -/

/-- Characters removed by Python `str.strip()` (the ASCII whitespace range). -/
def pyWs (c : Char) : Bool :=
  c == ' ' || c == '\t' || c == '\n' || c == '\r' || c == '\x0b' || c == '\x0c'

/-- Python `str.strip()` on a character list. -/
def pyStripList (l : List Char) : List Char :=
  ((l.dropWhile pyWs).reverse.dropWhile pyWs).reverse

/-- Python `str.strip()`. -/
def pyStrip (s : String) : String :=
  String.mk (pyStripList s.toList)

/-- Python `str.lower()` restricted to ASCII. -/
def pyLower (s : String) : String :=
  String.mk (s.toList.map Char.toLower)

/-- Is `c` an ASCII lowercase letter, i.e. matched by the regex class `[a-z]`. -/
def isLowerAZ (c : Char) : Bool :=
  decide ('a' ≤ c) && decide (c ≤ 'z')

/-- Accumulator worker for `lowerRuns`: `acc` holds the current (reversed) run. -/
def lowerRunsAux : List Char → List Char → List String
  | acc, [] => if acc.isEmpty then [] else [String.mk acc.reverse]
  | acc, c :: cs =>
    if isLowerAZ c then lowerRunsAux (c :: acc) cs
    else if acc.isEmpty then lowerRunsAux [] cs
    else String.mk acc.reverse :: lowerRunsAux [] cs

/-- All maximal runs of `[a-z]` letters, as computed by `re.findall(r'[a-z]+', t)`. -/
def lowerRuns (l : List Char) : List String :=
  lowerRunsAux [] l

/-- The inner `extract_keywords` helper of `is_duplicate` / `find_related_posts`:
lowercase the title, take the `[a-z]+` runs, drop stop words and words of
length at most 2, and collect the survivors into a set. -/
def extract_keywords (stopWords : List String) (t : String) : Finset String :=
  ((lowerRuns (pyLower t).toList).filter
    (fun w => !stopWords.contains w && decide (2 < w.length))).toFinset

/-! ## Corpus model and `is_duplicate` -/

/-- One entry of `self.existing_posts` as built by `fetch_existing_posts`. -/
structure BlogPost where
  id : String
  title : String
  url : String
  labels : List String
  published : String
deriving DecidableEq, Repr

/-- The stop-word set hard-coded in `is_duplicate`. -/
def dupStopWords : List String :=
  ["the", "a", "an", "is", "are", "was", "were", "i", "you", "it",
   "that", "this", "and", "or", "but", "in", "on", "at", "to", "for",
   "of", "with", "by", "from", "what", "why", "how", "when", "where",
   "do", "does", "did", "have", "has", "had", "not", "no", "so",
   "if", "my", "your", "our", "their", "about", "into", "up", "here",
   "there", "some", "most", "really", "actually", "just", "still"]

/-- The exact-match fast path of `is_duplicate`:
`title.lower().strip() == post['title'].lower().strip()`. -/
def exactTitleMatch (t e : String) : Bool :=
  pyStrip (pyLower t) == pyStrip (pyLower e)

/-- The keyword-overlap branch of `is_duplicate`: both keyword sets nonempty
and `overlap / max(|A|, |B|) >= 0.7`, the latter rendered as the exact
rational comparison `7 * max <= 10 * overlap` (see the header note). -/
def keywordSimilarDup (a b : Finset String) : Bool :=
  a.card != 0 && b.card != 0 && decide (7 * max a.card b.card ≤ 10 * (a ∩ b).card)

/-- The loop body of `is_duplicate` for one existing post. -/
def postDuplicateCheck (title : String) (post : BlogPost) : Bool :=
  exactTitleMatch title post.title ||
  keywordSimilarDup (extract_keywords dupStopWords title)
    (extract_keywords dupStopWords post.title)

/-- `ProBlogBotV4.is_duplicate`, with the corpus snapshot made explicit. -/
def is_duplicate (existing_posts : List BlogPost) (title : String) : Bool :=
  if existing_posts.isEmpty then false
  else existing_posts.any (postDuplicateCheck title)

/-! ## `find_related_posts` -/

/-- The (smaller) stop-word set hard-coded in `find_related_posts`. -/
def relStopWords : List String :=
  ["the", "a", "an", "is", "are", "i", "you", "it", "that", "this",
   "and", "or", "but", "in", "on", "at", "to", "for", "of", "with",
   "what", "why", "how", "do", "does", "not", "here", "about"]

/-- Lower-cased label set, as `set(l.lower() for l in labels)`. -/
def labelSet (labels : List String) : Finset String :=
  (labels.map pyLower).toFinset

/-- The relatedness score of one candidate post:
`2 * |label intersection| + |keyword intersection|`. -/
def relatedScore (newKeywords newLabels : Finset String) (post : BlogPost) : Nat :=
  2 * (newLabels ∩ labelSet post.labels).card +
    (newKeywords ∩ extract_keywords relStopWords post.title).card

/-- Insert into a score-descending list, after all entries of greater or equal
score that are already present.  Folding `insertDesc` from the right over the
scored candidates reproduces Python's stable `list.sort(key=score,
reverse=True)`: an element earlier in the original list is inserted later and
placed before every equal-scored element. -/
def insertDesc (x : Nat × BlogPost) : List (Nat × BlogPost) → List (Nat × BlogPost)
  | [] => [x]
  | y :: ys => if y.1 ≤ x.1 then x :: y :: ys else y :: insertDesc x ys

/-- Stable descending sort by score (Python `scored.sort(key=..., reverse=True)`). -/
def sortByScoreDesc (l : List (Nat × BlogPost)) : List (Nat × BlogPost) :=
  l.foldr insertDesc []

/-- The `scored` list of `find_related_posts`: posts with a URL and a
strictly positive score, paired with their score, in corpus order. -/
def scoredCandidates (existing_posts : List BlogPost) (nk nl : Finset String) :
    List (Nat × BlogPost) :=
  existing_posts.filterMap (fun p =>
    if p.url == "" then none
    else if 0 < relatedScore nk nl p then some (relatedScore nk nl p, p) else none)

/-- `ProBlogBotV4.find_related_posts`: skip posts without a URL, score the
rest, keep strictly positive scores, sort descending (stably) and truncate. -/
def find_related_posts (existing_posts : List BlogPost) (title : String)
    (labels : List String) (max_links : Nat) : List BlogPost :=
  if existing_posts.isEmpty then []
  else
    ((sortByScoreDesc (scoredCandidates existing_posts
        (extract_keywords relStopWords title) (labelSet labels))).take max_links).map (·.2)

/-! ## Topic fallback (`_topic_fallback`) -/

/-- `ProBlogBotV4._topic_fallback` after the shuffle: `shuffled` is the
shuffled union of all per-category fallback `(category, topic)` pairs and
`choice` injects the randomness of `random.choice` (an arbitrary in-range
index).  Returns the first non-duplicate pair; if every pair is a duplicate,
returns the pair at the random index.  `none` occurs only for an empty pool
(where the Python code would raise `IndexError`). -/
def topic_fallback (existing : List BlogPost) (shuffled : List (String × String))
    (choice : Nat) : Option (String × String) :=
  match shuffled.find? (fun ct => !is_duplicate existing ct.2) with
  | some ct => some ct
  | none => shuffled.get? (choice % shuffled.length)

/-! ## Plan handling (`step_1_plan` / `_plan_fallback`) -/

/-- The parsed plan JSON (`plan_schema` fields). -/
structure PlanData where
  working_title : String
  hook_concept : String
  contrarian_angle : String
  sections : List (String × String × String)
  honest_caveat : String
  image_queries : List String
deriving DecidableEq, Repr

/-- `ProBlogBotV4._plan_fallback`: the relaxed re-prompt path.  `parsed` is
the result of `json.loads` on the (fence-stripped) model text; parse or call
failure yields `none` and the parsed object is otherwise returned unchanged —
in particular without any padding of `image_queries`. -/
def plan_fallback (parsed : Except String PlanData) : Option PlanData :=
  match parsed with
  | .ok p => some p
  | .error _ => none

/-- `ProBlogBotV4.step_1_plan`: on a successful structured call the parsed
plan is returned with `image_queries` padded to the two defaults whenever it
has fewer than 2 entries; on failure the fallback path is used. -/
def step_1_plan (parsed : Except String PlanData)
    (fallbackParsed : Except String PlanData) : Option PlanData :=
  match parsed with
  | .ok p =>
    some (if p.image_queries.length < 2 then
            { p with image_queries := ["workspace productivity", "research notes"] }
          else p)
  | .error _ => plan_fallback fallbackParsed

/-! ## Length-gated refinement stages (`step_3_self_critique` / `step_4_humanize`)

The model call, text extraction and `sanitize_html` post-processing are
external to the gate being verified; `outcome` is the sanitized text of a
successful call, or the exception of a failed one. -/

/-- `ProBlogBotV4.step_3_self_critique`: keep the prior draft on failure or
when the sanitized output is shorter than 500 characters. -/
def step_3_self_critique (draft : String) (outcome : Except String String) : String :=
  match outcome with
  | .error _ => draft
  | .ok result => if result.length < 500 then draft else result

/-- `ProBlogBotV4.step_4_humanize`: keep the prior content on failure or when
the sanitized output is shorter than 500 characters. -/
def step_4_humanize (content : String) (outcome : Except String String) : String :=
  match outcome with
  | .error _ => content
  | .ok result => if result.length < 500 then content else result

/-! ## Image markers (`step_5_add_images`)

The regex `\[IMAGE:.*?\]` (no DOTALL flag) matches a literal `[IMAGE:`
followed by the shortest run of non-newline characters up to a `]`.
`re.findall` / `re.sub` scan left to right over non-overlapping matches. -/

/-- The literal prefix `[IMAGE:` of a marker. -/
def markerOpen : List Char := ['[', 'I', 'M', 'A', 'G', 'E', ':']

/-- Scan for the first `]`, failing on a newline or the end of input.
On success returns the consumed prefix (which ends in `]`) and the rest. -/
def closeSplit : List Char → Option (List Char × List Char)
  | [] => none
  | c :: cs =>
    if c = ']' then some ([']'], cs)
    else if c = '\n' then none
    else (closeSplit cs).map (fun p => (c :: p.1, p.2))

/-- Try to match `\[IMAGE:.*?\]` at the head of `l`; on success returns the
matched text and the remainder. -/
def matchMarker (l : List Char) : Option (List Char × List Char) :=
  if markerOpen.isPrefixOf l then
    (closeSplit (l.drop 7)).map (fun p => (markerOpen ++ p.1, p.2))
  else none

/-- `re.sub(r'\[IMAGE:.*?\]', '', content)`: remove every non-overlapping
match in a single left-to-right scan. -/
def stripMarkers : List Char → List Char
  | [] => []
  | c :: cs =>
    match h : matchMarker (c :: cs) with
    | some p => stripMarkers p.2
    | none => c :: stripMarkers cs
termination_by l => l.length
decreasing_by
  · have aux : ∀ (l : List Char) (q : List Char × List Char),
        closeSplit l = some q → q.2.length < l.length := by
      intro l
      induction l with
      | nil => intro q hq; simp [closeSplit] at hq
      | cons a as ih =>
        intro q hq
        by_cases ha : a = ']'
        · simp [closeSplit, ha] at hq
          subst hq
          simp
        · by_cases hn : a = '\n'
          · simp [closeSplit, ha, hn] at hq
          · rw [closeSplit] at hq
            simp only [if_neg ha, if_neg hn] at hq
            cases has : closeSplit as with
            | none => rw [has] at hq; simp at hq
            | some r =>
              rw [has] at hq
              simp only [Option.map_some'] at hq
              have := ih r has
              injection hq with h2
              rw [← h2]
              simp only [List.length_cons]
              omega
    unfold matchMarker at h
    split at h
    · next hpre =>
      simp only [Option.map_eq_some'] at h
      obtain ⟨q, hq, hqp⟩ := h
      have hlen : 7 ≤ (c :: cs).length := by
        have := List.IsPrefix.length_le (List.isPrefixOf_iff_prefix.mp hpre)
        simpa [markerOpen] using this
      have := aux _ _ hq
      rw [← hqp]
      simp only [List.length_drop] at this ⊢
      omega
    · exact absurd h (by simp)
  · simp

/-- `re.findall(r'\[IMAGE:.*?\]', content)`: the list of matched marker
texts, in scan order. -/
def findallMarkers : List Char → List (List Char)
  | [] => []
  | c :: cs =>
    match h : matchMarker (c :: cs) with
    | some p => p.1 :: findallMarkers p.2
    | none => findallMarkers cs
termination_by l => l.length
decreasing_by
  · have aux : ∀ (l : List Char) (q : List Char × List Char),
        closeSplit l = some q → q.2.length < l.length := by
      intro l
      induction l with
      | nil => intro q hq; simp [closeSplit] at hq
      | cons a as ih =>
        intro q hq
        by_cases ha : a = ']'
        · simp [closeSplit, ha] at hq
          subst hq
          simp
        · by_cases hn : a = '\n'
          · simp [closeSplit, ha, hn] at hq
          · rw [closeSplit] at hq
            simp only [if_neg ha, if_neg hn] at hq
            cases has : closeSplit as with
            | none => rw [has] at hq; simp at hq
            | some r =>
              rw [has] at hq
              simp only [Option.map_some'] at hq
              have := ih r has
              injection hq with h2
              rw [← h2]
              simp only [List.length_cons]
              omega
    unfold matchMarker at h
    split at h
    · next hpre =>
      simp only [Option.map_eq_some'] at h
      obtain ⟨q, hq, hqp⟩ := h
      have hlen : 7 ≤ (c :: cs).length := by
        have := List.IsPrefix.length_le (List.isPrefixOf_iff_prefix.mp hpre)
        simpa [markerOpen] using this
      have := aux _ _ hq
      rw [← hqp]
      simp only [List.length_drop] at this ⊢
      omega
    · exact absurd h (by simp)
  · simp

/-- Python `content.replace(old, new, 1)`: replace the first occurrence. -/
def replaceFirst (pat repl : List Char) : List Char → List Char
  | [] => []
  | c :: cs =>
    if pat.isPrefixOf (c :: cs) then repl ++ (c :: cs).drop pat.length
    else c :: replaceFirst pat repl cs

/-- Python `s.replace(old, new)` for a nonempty `old`: replace every
non-overlapping occurrence, left to right.  (The `pat ≠ []` guard only
serves termination; both call sites pass nonempty patterns.) -/
def replaceAll (pat repl : List Char) (l : List Char) : List Char :=
  match l with
  | [] => []
  | c :: cs =>
    if pat.isPrefixOf (c :: cs) ∧ pat ≠ [] then
      repl ++ replaceAll pat repl ((c :: cs).drop pat.length)
    else c :: replaceAll pat repl cs
termination_by l.length
decreasing_by
  · rename_i hp
    have h1 : 1 ≤ pat.length := by
      cases pat with
      | nil => exact absurd rfl hp.2
      | cons a as => simp
    simp only [List.length_drop, List.length_cons]
    omega
  · simp

/-- The search query derived from a marker:
`marker.replace('[IMAGE:', '').replace(']', '').strip()`. -/
def markerQuery (m : List Char) : List Char :=
  pyStripList (replaceAll [']'] [] (replaceAll markerOpen [] m))

/-- The fields of a successful Unsplash lookup that flow into the markup. -/
structure ImageData where
  url : List Char
  userName : List Char
  userUsername : List Char

def imgHtmlSeg1 : List Char :=
  "\n<figure style=\"margin: 2.5rem 0; text-align: center;\">\n    <img src=\"".toList

def imgHtmlSeg2 : List Char := "\" alt=\"".toList

def imgHtmlSeg3 : List Char :=
  "\"\n         style=\"width: 100%; max-width: 800px; border-radius: 12px; box-shadow: 0 4px 20px rgba(0,0,0,0.08);\"\n         loading=\"lazy\">\n    <figcaption style=\"color: #6b7280; font-size: 0.875rem; margin-top: 0.75rem;\">\n        Photo by <a href=\"https://unsplash.com/@".toList

def imgHtmlSeg4 : List Char :=
  "?utm_source=insightcrossroad&utm_medium=referral\" target=\"_blank\" rel=\"noopener\" style=\"color: #6b7280;\">".toList

def imgHtmlSeg5 : List Char :=
  "</a>\n        on <a href=\"https://unsplash.com/?utm_source=insightcrossroad&utm_medium=referral\" target=\"_blank\" rel=\"noopener\" style=\"color: #6b7280;\">Unsplash</a>\n    </figcaption>\n</figure>\n".toList

/-- The `img_html` f-string of `step_5_add_images`. -/
def imgHtml (query : List Char) (d : ImageData) : List Char :=
  imgHtmlSeg1 ++ d.url ++ imgHtmlSeg2 ++ query ++ imgHtmlSeg3 ++
    d.userUsername ++ imgHtmlSeg4 ++ d.userName ++ imgHtmlSeg5

/-- The per-marker loop of `step_5_add_images`: `fetch i` is the outcome of
the `i`-th Unsplash request (`none` covers a non-200 status and any raised
exception, both of which replace the marker's first occurrence by nothing). -/
def step5Loop (fetch : Nat → Option ImageData) :
    List (List Char) → Nat → List Char → List Char
  | [], _, content => content
  | m :: rest, i, content =>
    let next :=
      match fetch i with
      | some d => replaceFirst m (imgHtml (markerQuery m) d) content
      | none => replaceFirst m [] content
    step5Loop fetch rest (i + 1) next

/-- `ProBlogBotV4.step_5_add_images`: without an Unsplash key every marker
match is stripped in one pass; with a key, each marker found by `findall` is
replaced (first occurrence) by attribution markup on success or by nothing on
failure. -/
def step_5_add_images (hasUnsplashKey : Bool) (fetch : Nat → Option ImageData)
    (content : List Char) : List Char :=
  if !hasUnsplashKey then stripMarkers content
  else step5Loop fetch (findallMarkers content) 0 content

/-- Does the text contain a substring matching `\[IMAGE:.*?\]`? -/
def hasMarker : List Char → Bool
  | [] => false
  | c :: cs => (matchMarker (c :: cs)).isSome || hasMarker cs

/-- Bracket hygiene: every `[` in the text opens the literal prefix
`[IMAGE:`. -/
def bracketsOk : List Char → Bool
  | [] => true
  | c :: cs => (c != '[' || "IMAGE:".toList.isPrefixOf cs) && bracketsOk cs

/-! ## Publishing (`step_7_publish`) -/

/-- The CSS shell prepended to every article by `step_7_publish`
(braces and apostrophes rendered as hex escapes). -/
def bloggerCss : String :=
  "\n<style>\n" ++
  "    .post-body \x7b\n" ++
  "        font-family: -apple-system, BlinkMacSystemFont, \x27Segoe UI\x27, Roboto, \x27Helvetica Neue\x27, Arial, sans-serif;\n" ++
  "        line-height: 1.75;\n" ++
  "        color: #1f2937;\n" ++
  "        font-size: 1.125rem;\n" ++
  "    \x7d\n" ++
  "    .post-body h2 \x7b\n" ++
  "        font-size: 1.75rem;\n" ++
  "        font-weight: 700;\n" ++
  "        color: #111827;\n" ++
  "        margin: 3rem 0 1.25rem;\n" ++
  "        letter-spacing: -0.025em;\n" ++
  "    \x7d\n" ++
  "    .post-body h3 \x7b\n" ++
  "        font-size: 1.375rem;\n" ++
  "        font-weight: 600;\n" ++
  "        color: #374151;\n" ++
  "        margin: 2rem 0 1rem;\n" ++
  "    \x7d\n" ++
  "    .post-body p \x7b\n" ++
  "        margin-bottom: 1.5rem;\n" ++
  "    \x7d\n" ++
  "    .post-body ul, .post-body ol \x7b\n" ++
  "        margin: 1.5rem 0;\n" ++
  "        padding-left: 1.5rem;\n" ++
  "    \x7d\n" ++
  "    .post-body li \x7b\n" ++
  "        margin-bottom: 0.75rem;\n" ++
  "    \x7d\n" ++
  "    .post-body blockquote \x7b\n" ++
  "        border-left: 4px solid #3b82f6;\n" ++
  "        padding: 1rem 1.5rem;\n" ++
  "        background: #f8fafc;\n" ++
  "        color: #475569;\n" ++
  "        font-style: italic;\n" ++
  "        margin: 2rem 0;\n" ++
  "        border-radius: 0 8px 8px 0;\n" ++
  "    \x7d\n" ++
  "    .post-body table \x7b\n" ++
  "        width: 100%; border-collapse: collapse; margin: 2rem 0; font-size: 1rem;\n" ++
  "    \x7d\n" ++
  "    .post-body th \x7b\n" ++
  "        background: #f1f5f9; font-weight: 600; text-align: left;\n" ++
  "        padding: 1rem; border-bottom: 2px solid #e2e8f0;\n" ++
  "    \x7d\n" ++
  "    .post-body td \x7b\n" ++
  "        padding: 1rem; border-bottom: 1px solid #f1f5f9;\n" ++
  "    \x7d\n" ++
  "    .disclaimer \x7b\n" ++
  "        background: #fef2f2; padding: 1.25rem; border-radius: 8px;\n" ++
  "        font-size: 0.875rem; color: #991b1b; margin-top: 2rem;\n" ++
  "        border: 1px solid #fecaca;\n" ++
  "    \x7d\n" ++
  "</style>\n"

/-- The affiliate disclosure appended in MONEY mode. -/
def moneyDisclaimer : String :=
  "\n<div class=\"disclaimer\">\n    <strong>Disclosure:</strong> Some links in this article may be affiliate links,\n    which help support this site at no extra cost to you.\n    I only recommend tools that came up well in my research.\n</div>\n"

/-- `final_html = f\"{css}<div class='post-body'>{content}{disclaimer}</div>\"`,
with the disclosure present exactly in MONEY mode. -/
def finalHtml (mode content : String) : String :=
  bloggerCss ++ "<div class=\x27post-body\x27>" ++ content ++
    (if mode == "MONEY" then moneyDisclaimer else "") ++ "</div>"

/-- The `tag_map` table of `step_7_publish`. -/
def tagMap (mode : String) : List String :=
  if mode == "APPROVAL" then ["Guides", "How-To", "Research"]
  else if mode == "MONEY" then ["Reviews", "Comparisons", "Tools"]
  else []

/-- `category.replace('_', ' ')`. -/
def categoryTag (category : String) : String :=
  String.mk (category.toList.map (fun c => if c = '_' then ' ' else c))

/-- The draft-insertion request body built by `step_7_publish`.  `sampledTags`
injects the outcome of `random.sample(tag_map[mode], 2)`; the label list
`list(set(tags))` is a set, modelled as a `Finset`. -/
structure PublishRequest where
  title : String
  content : String
  labels : Finset String
  isDraft : Bool
deriving DecidableEq

/-- The receipt returned by a successful `posts().insert(...)`. -/
structure PublishReceipt where
  id : String
  url : String
deriving DecidableEq, Repr

/-- The request body assembled by `step_7_publish` before submission:
`isDraft=True` is hard-coded in the insert call. -/
def publishRequest (mode title content category : String)
    (sampledTags : List String) : PublishRequest :=
  { title := title
    content := finalHtml mode content
    labels := (categoryTag category :: sampledTags).toFinset
    isDraft := true }

/-- The submission of `step_7_publish`: `insertAttempt i` is the outcome of
the `i`-th draft-insertion attempt; only attempt 0 is ever made, a raised
exception is caught and surfaced to the caller as `none`, and a success
returns the receipt. -/
def step_7_publish (req : PublishRequest)
    (insertAttempt : PublishRequest → Nat → Except String PublishReceipt) :
    Option PublishReceipt :=
  match insertAttempt req 0 with
  | .ok r => some r
  | .error _ => none

/-! ## Helper lemmas -/

theorem is_duplicate_of_mem {posts : List BlogPost} {title : String} {p : BlogPost}
    (hp : p ∈ posts) (hc : postDuplicateCheck title p = true) :
    is_duplicate posts title = true := by
  have hne : posts ≠ [] := List.ne_nil_of_mem hp
  simp only [is_duplicate, List.isEmpty_iff, if_neg hne, List.any_eq_true]
  exact ⟨p, hp, hc⟩

theorem is_duplicate_eq_false {posts : List BlogPost} {title : String}
    (h : ∀ p ∈ posts, postDuplicateCheck title p = false) :
    is_duplicate posts title = false := by
  by_cases hne : posts = []
  · subst hne; rfl
  · simp only [is_duplicate, List.isEmpty_iff, if_neg hne, List.any_eq_false]
    intro p hp
    simp [h p hp]

theorem postDuplicateCheck_of_empty_keywords {title : String} {p : BlogPost}
    (h : extract_keywords dupStopWords title = ∅ ∨
      extract_keywords dupStopWords p.title = ∅) :
    postDuplicateCheck title p = exactTitleMatch title p.title := by
  unfold postDuplicateCheck keywordSimilarDup
  rcases h with h | h <;> simp [h]

theorem mem_insertDesc {x a : Nat × BlogPost} {l : List (Nat × BlogPost)} :
    a ∈ insertDesc x l ↔ a = x ∨ a ∈ l := by
  induction l with
  | nil => simp [insertDesc]
  | cons y ys ih =>
    unfold insertDesc
    by_cases h : y.1 ≤ x.1
    · simp [h]
    · simp [h, ih]
      tauto

theorem mem_sortByScoreDesc {a : Nat × BlogPost} {l : List (Nat × BlogPost)} :
    a ∈ sortByScoreDesc l ↔ a ∈ l := by
  unfold sortByScoreDesc
  induction l with
  | nil => simp
  | cons y ys ih =>
    simp only [List.foldr_cons, mem_insertDesc, ih, List.mem_cons]

theorem sorted_insertDesc {x : Nat × BlogPost} {l : List (Nat × BlogPost)}
    (h : l.Sorted (fun a b => b.1 ≤ a.1)) :
    (insertDesc x l).Sorted (fun a b => b.1 ≤ a.1) := by
  induction l with
  | nil => simp [insertDesc]
  | cons y ys ih =>
    unfold insertDesc
    rcases List.sorted_cons.mp h with ⟨hy, hys⟩
    by_cases hxy : y.1 ≤ x.1
    · rw [if_pos hxy]
      refine List.sorted_cons.mpr ⟨?_, h⟩
      intro b hb
      rcases List.mem_cons.mp hb with rfl | hb
      · exact hxy
      · exact le_trans (hy b hb) hxy
    · rw [if_neg hxy]
      refine List.sorted_cons.mpr ⟨?_, ih hys⟩
      intro b hb
      rcases mem_insertDesc.mp hb with rfl | hb
      · omega
      · exact hy b hb

theorem sorted_sortByScoreDesc (l : List (Nat × BlogPost)) :
    (sortByScoreDesc l).Sorted (fun a b => b.1 ≤ a.1) := by
  induction l with
  | nil => simp [sortByScoreDesc]
  | cons y ys ih =>
    have hstep : sortByScoreDesc (y :: ys) = insertDesc y (sortByScoreDesc ys) := rfl
    rw [hstep]
    exact sorted_insertDesc ih

theorem filter_insertDesc (x : Nat × BlogPost) (l : List (Nat × BlogPost)) (s : Nat) :
    (insertDesc x l).filter (fun a => a.1 == s) =
      if x.1 == s then x :: l.filter (fun a => a.1 == s)
      else l.filter (fun a => a.1 == s) := by
  induction l with
  | nil =>
    by_cases hx : (x.1 == s) = true <;>
      simp [insertDesc, List.filter_cons, hx]
  | cons y ys ih =>
    unfold insertDesc
    by_cases hxy : y.1 ≤ x.1
    · rw [if_pos hxy]
      by_cases hx : (x.1 == s) = true <;> simp [List.filter_cons, hx]
    · rw [if_neg hxy]
      by_cases hx : (x.1 == s) = true
      · have hxs : x.1 = s := by simpa using hx
        have hy : (y.1 == s) = false := by
          simp only [beq_eq_false_iff_ne, ne_eq]
          omega
        simp [List.filter_cons, hx, hy, ih]
      · have hx2 : (x.1 == s) = false := by simpa using hx
        simp [List.filter_cons, hx2, ih]

theorem filter_sortByScoreDesc (l : List (Nat × BlogPost)) (s : Nat) :
    (sortByScoreDesc l).filter (fun a => a.1 == s) = l.filter (fun a => a.1 == s) := by
  induction l with
  | nil => rfl
  | cons y ys ih =>
    have hstep : sortByScoreDesc (y :: ys) = insertDesc y (sortByScoreDesc ys) := rfl
    rw [hstep, filter_insertDesc, List.filter_cons]
    by_cases hy : (y.1 == s) = true <;> simp [hy, ih]

theorem mem_scoredCandidates {existing : List BlogPost} {nk nl : Finset String}
    {sp : Nat × BlogPost} (h : sp ∈ scoredCandidates existing nk nl) :
    sp.1 = relatedScore nk nl sp.2 ∧ 0 < sp.1 ∧ sp.2 ∈ existing ∧ sp.2.url ≠ "" := by
  unfold scoredCandidates at h
  rw [List.mem_filterMap] at h
  obtain ⟨p, hp, hf⟩ := h
  by_cases hu : (p.url == "") = true
  · rw [if_pos hu] at hf
    exact absurd hf (by simp)
  · rw [if_neg (by simpa using hu)] at hf
    by_cases hs : 0 < relatedScore nk nl p
    · rw [if_pos hs] at hf
      injection hf with hf
      subst hf
      exact ⟨rfl, hs, hp, by simpa using hu⟩
    · rw [if_neg hs] at hf
      exact absurd hf (by simp)

/-! ## Claim theorems -/

/-- C1: for every existing post whose normalized keyword set and the
candidate's are both nonempty and overlap at ratio at least 0.70,
`is_duplicate` returns true; and when every existing post has overlap below
0.70 (whenever both sets are nonempty) and no exact normalized match exists,
`is_duplicate` returns false. -/
theorem C1_keyword_overlap_threshold (posts : List BlogPost) (title : String) :
    ((∃ p ∈ posts,
        extract_keywords dupStopWords title ≠ ∅ ∧
        extract_keywords dupStopWords p.title ≠ ∅ ∧
        7 * max (extract_keywords dupStopWords title).card
            (extract_keywords dupStopWords p.title).card ≤
          10 * (extract_keywords dupStopWords title ∩
            extract_keywords dupStopWords p.title).card) →
      is_duplicate posts title = true) ∧
    ((∀ p ∈ posts, exactTitleMatch title p.title = false ∧
        (extract_keywords dupStopWords title ≠ ∅ →
         extract_keywords dupStopWords p.title ≠ ∅ →
         10 * (extract_keywords dupStopWords title ∩
            extract_keywords dupStopWords p.title).card <
           7 * max (extract_keywords dupStopWords title).card
             (extract_keywords dupStopWords p.title).card)) →
      is_duplicate posts title = false) := by
  constructor
  · rintro ⟨p, hp, ha, hb, hsim⟩
    apply is_duplicate_of_mem hp
    unfold postDuplicateCheck keywordSimilarDup
    simp only [Bool.or_eq_true, Bool.and_eq_true, bne_iff_ne, ne_eq, decide_eq_true_eq]
    right
    refine ⟨⟨?_, ?_⟩, hsim⟩
    · simpa [Finset.card_eq_zero] using ha
    · simpa [Finset.card_eq_zero] using hb
  · intro h
    apply is_duplicate_eq_false
    intro p hp
    obtain ⟨hex, hlt⟩ := h p hp
    unfold postDuplicateCheck keywordSimilarDup
    simp only [hex, Bool.false_or, Bool.and_eq_false_iff]
    by_cases ha : extract_keywords dupStopWords title = ∅
    · left; left; simp [ha]
    · by_cases hb : extract_keywords dupStopWords p.title = ∅
      · left; right; simp [hb]
      · right
        simp only [decide_eq_false_iff_not, not_le]
        exact hlt ha hb

/-- C1 witness: a concrete pair with overlap 3/4 (at least 0.70) is flagged,
and a concrete pair with overlap 1/3 (below 0.70) is not. -/
theorem C1_keyword_overlap_threshold_witness :
    is_duplicate [⟨"1", "Alpha Beta Gamma Extra", "u", [], ""⟩] "Alpha Beta Gamma" = true ∧
    is_duplicate [⟨"1", "Gamma Delta Epsilon", "u", [], ""⟩] "Alpha Beta Delta" = false :=
  ⟨(C1_keyword_overlap_threshold _ _).1
      ⟨⟨"1", "Alpha Beta Gamma Extra", "u", [], ""⟩, by simp, by decide, by decide, by decide⟩,
   (C1_keyword_overlap_threshold _ _).2
      (by intro p hp; simp at hp; subst hp; exact ⟨by decide, by intro _ _; decide⟩)⟩

/-- C3 counterexample: a Plan parsed on the unstructured fallback path with a
single media query is handed forward unchanged — it is not padded to the two
default queries, refuting the claim for the fallback path. -/
theorem C3_fallback_plan_unpadded_counterexample :
    step_1_plan (Except.error "structured planning call failed")
        (Except.ok ⟨"T", "h", "c", [], "v", ["single query"]⟩) =
      some ⟨"T", "h", "c", [], "v", ["single query"]⟩ ∧
    (⟨"T", "h", "c", [], "v", ["single query"]⟩ : PlanData).image_queries.length = 1 :=
  ⟨rfl, rfl⟩

/-- C3 amended: only the primary structured path pads `image_queries` — a
parsed plan with fewer than 2 queries has the field set to exactly the two
default queries, and one with at least 2 is passed through unchanged — while
the fallback path returns its parsed object as is, without padding. -/
theorem C3_media_query_padding_amended :
    (∀ (p : PlanData) (fb : Except String PlanData) (q : PlanData),
      step_1_plan (Except.ok p) fb = some q →
      2 ≤ q.image_queries.length ∧
      (p.image_queries.length < 2 →
        q.image_queries = ["workspace productivity", "research notes"]) ∧
      (2 ≤ p.image_queries.length → q = p)) ∧
    (∀ (p : PlanData) (fb : Except String PlanData),
      ∃ q, step_1_plan (Except.ok p) fb = some q) ∧
    (∀ (e : String) (fb : Except String PlanData),
      step_1_plan (Except.error e) fb = plan_fallback fb) ∧
    (∀ p : PlanData, plan_fallback (Except.ok p) = some p) := by
  refine ⟨?_, ?_, ?_, ?_⟩
  · intro p fb q h
    simp only [step_1_plan, Option.some_inj] at h
    by_cases hl : p.image_queries.length < 2
    · rw [if_pos hl] at h
      subst h
      exact ⟨by simp, fun _ => by simp, fun h2 => by omega⟩
    · rw [if_neg hl] at h
      subst h
      exact ⟨by omega, fun h2 => absurd h2 hl, fun _ => rfl⟩
  · intro p fb
    exact ⟨_, rfl⟩
  · intro e fb
    rfl
  · intro p
    rfl

/-- C3 amended witness: a structured plan with one query is padded to the two
defaults. -/
theorem C3_media_query_padding_amended_witness :
    2 ≤ (PlanData.mk "T" "h" "c" [] "v"
        ["workspace productivity", "research notes"]).image_queries.length ∧
    ((PlanData.mk "T" "h" "c" [] "v" ["one"]).image_queries.length < 2 →
      (PlanData.mk "T" "h" "c" [] "v"
        ["workspace productivity", "research notes"]).image_queries =
        ["workspace productivity", "research notes"]) ∧
    (2 ≤ (PlanData.mk "T" "h" "c" [] "v" ["one"]).image_queries.length →
      PlanData.mk "T" "h" "c" [] "v" ["workspace productivity", "research notes"] =
        PlanData.mk "T" "h" "c" [] "v" ["one"]) :=
  C3_media_query_padding_amended.1 ⟨"T", "h", "c", [], "v", ["one"]⟩
    (Except.error "x") _ rfl

/-- C4: the publish step makes a single draft-insertion attempt (its result
depends only on attempt 0), surfaces an insertion failure to its caller as
`none` rather than a fabricated receipt, and the submitted body always has
`isDraft = true` — never auto-published. -/
theorem C4_publish_single_attempt_draft :
    ∀ (mode title content category : String) (sampledTags : List String)
      (ins ins' : PublishRequest → Nat → Except String PublishReceipt)
      (req : PublishRequest),
      (publishRequest mode title content category sampledTags).isDraft = true ∧
      (ins req 0 = ins' req 0 → step_7_publish req ins = step_7_publish req ins') ∧
      (∀ e, ins req 0 = .error e → step_7_publish req ins = none) ∧
      (∀ r, ins req 0 = .ok r → step_7_publish req ins = some r) := by
  intro mode title content category sampledTags ins ins' req
  refine ⟨rfl, ?_, ?_, ?_⟩
  · intro h
    unfold step_7_publish
    rw [h]
  · intro e h
    unfold step_7_publish
    rw [h]
  · intro r h
    unfold step_7_publish
    rw [h]

/-- C4 witness: a failing insert call yields `none` for the caller. -/
theorem C4_publish_single_attempt_draft_witness :
    step_7_publish (publishRequest "APPROVAL" "T" "B" "Tech_Tips" ["Guides", "Research"])
      (fun _ _ => Except.error "insert failed") = none :=
  (C4_publish_single_attempt_draft "APPROVAL" "T" "B" "Tech_Tips" ["Guides", "Research"]
    (fun _ _ => Except.error "insert failed") (fun _ _ => Except.error "insert failed")
    _).2.2.1 "insert failed" rfl

/-- C5 counterexample: with a two-entry shuffled pool whose titles are both
already in the corpus, the fallback with random index 1 returns the second
shuffled entry, not the first — refuting "specifically the first shuffled
entry". -/
theorem C5_random_choice_counterexample :
    is_duplicate [⟨"1", "T One", "u", [], ""⟩, ⟨"2", "T Two", "u", [], ""⟩] "T One" = true ∧
    is_duplicate [⟨"1", "T One", "u", [], ""⟩, ⟨"2", "T Two", "u", [], ""⟩] "T Two" = true ∧
    topic_fallback [⟨"1", "T One", "u", [], ""⟩, ⟨"2", "T Two", "u", [], ""⟩]
        [("CatA", "T One"), ("CatB", "T Two")] 1 = some ("CatB", "T Two") ∧
    [("CatA", "T One"), ("CatB", "T Two")].get? 0 = some ("CatA", "T One") := by
  refine ⟨by decide, by decide, by decide, by decide⟩

/-- C5 amended: the fallback is total — on a nonempty shuffled pool it always
returns some entry of the pool, and it returns the first non-duplicate entry
when one exists; when every entry is a duplicate it returns the entry at the
random `random.choice` index, not necessarily the first. -/
theorem C5_topic_fallback_total_amended :
    ∀ (existing : List BlogPost) (shuffled : List (String × String)) (choice : Nat),
      shuffled ≠ [] →
      (∃ ct ∈ shuffled, topic_fallback existing shuffled choice = some ct) ∧
      (∀ ct, shuffled.find? (fun x => !is_duplicate existing x.2) = some ct →
        topic_fallback existing shuffled choice = some ct) := by
  intro existing shuffled choice hne
  constructor
  · unfold topic_fallback
    cases hf : shuffled.find? (fun x => !is_duplicate existing x.2) with
    | some ct => exact ⟨ct, List.mem_of_find?_eq_some hf, rfl⟩
    | none =>
      have hlen : 0 < shuffled.length := List.length_pos.mpr hne
      have hmod : choice % shuffled.length < shuffled.length := Nat.mod_lt _ hlen
      rw [List.get?_eq_get hmod]
      exact ⟨_, List.get_mem _ _ _, rfl⟩
  · intro ct hf
    unfold topic_fallback
    rw [hf]

/-- C5 amended witness: on an empty corpus the first pool entry is returned. -/
theorem C5_topic_fallback_total_amended_witness :
    topic_fallback [] [("Productivity", "Fresh Topic")] 0 =
      some ("Productivity", "Fresh Topic") :=
  (C5_topic_fallback_total_amended [] [("Productivity", "Fresh Topic")] 0 (by decide)).2
    ("Productivity", "Fresh Topic") (by decide)

/-- C6: the critique and humanise stages return the prior document unchanged
on a failed call or when the sanitized output is shorter than 500 characters,
so an accepted output is never below the threshold unless it is the unchanged
input. -/
theorem C6_length_gate :
    ∀ (prior : String) (outcome : Except String String),
      (step_3_self_critique prior outcome = prior ∨
        500 ≤ (step_3_self_critique prior outcome).length) ∧
      (step_4_humanize prior outcome = prior ∨
        500 ≤ (step_4_humanize prior outcome).length) ∧
      (∀ e, outcome = .error e →
        step_3_self_critique prior outcome = prior ∧
        step_4_humanize prior outcome = prior) ∧
      (∀ s, outcome = .ok s → s.length < 500 →
        step_3_self_critique prior outcome = prior ∧
        step_4_humanize prior outcome = prior) := by
  intro prior outcome
  cases outcome with
  | error e => simp [step_3_self_critique, step_4_humanize]
  | ok s =>
    by_cases hl : s.length < 500 <;>
      simp [step_3_self_critique, step_4_humanize, hl] <;> omega

/-- C6 witness: a short model output leaves the prior document unchanged in
both stages. -/
theorem C6_length_gate_witness :
    step_3_self_critique "prior draft" (Except.ok "too short") = "prior draft" ∧
    step_4_humanize "prior draft" (Except.ok "too short") = "prior draft" :=
  (C6_length_gate "prior draft" (Except.ok "too short")).2.2.2 "too short" rfl (by decide)

/-- C7: relatedness scoring is `2 * |label overlap| + |keyword overlap|` and
strictly monotonic in label overlap; every returned post scored strictly
positive and comes from the corpus; at most `max_links` posts are returned,
in descending score order, and the stable sort keeps equal-scored candidates
in their original corpus order. -/
theorem C7_relatedness_ranking (existing : List BlogPost) (title : String)
    (labels : List String) (max_links : Nat) :
    (∀ p q : BlogPost,
      (labelSet labels ∩ labelSet q.labels).card =
        (labelSet labels ∩ labelSet p.labels).card + 1 →
      (extract_keywords relStopWords title ∩ extract_keywords relStopWords q.title).card =
        (extract_keywords relStopWords title ∩ extract_keywords relStopWords p.title).card →
      relatedScore (extract_keywords relStopWords title) (labelSet labels) p <
        relatedScore (extract_keywords relStopWords title) (labelSet labels) q) ∧
    (∀ p ∈ find_related_posts existing title labels max_links,
      0 < relatedScore (extract_keywords relStopWords title) (labelSet labels) p ∧
      p ∈ existing) ∧
    (find_related_posts existing title labels max_links).length ≤ max_links ∧
    (find_related_posts existing title labels max_links).Sorted
      (fun p q => relatedScore (extract_keywords relStopWords title) (labelSet labels) q ≤
        relatedScore (extract_keywords relStopWords title) (labelSet labels) p) ∧
    (∀ s, (sortByScoreDesc (scoredCandidates existing
          (extract_keywords relStopWords title) (labelSet labels))).filter
            (fun a => a.1 == s) =
        (scoredCandidates existing (extract_keywords relStopWords title)
          (labelSet labels)).filter (fun a => a.1 == s)) := by
  set nk := extract_keywords relStopWords title with hnk
  set nl := labelSet labels with hnl
  refine ⟨?_, ?_, ?_, ?_, fun s => filter_sortByScoreDesc _ s⟩
  · intro p q hl hk
    unfold relatedScore
    omega
  · intro p hp
    unfold find_related_posts at hp
    by_cases he : existing.isEmpty
    · rw [if_pos he] at hp
      simp at hp
    · rw [if_neg he] at hp
      rw [List.mem_map] at hp
      obtain ⟨sp, hsp, rfl⟩ := hp
      have h1 : sp ∈ sortByScoreDesc (scoredCandidates existing nk nl) :=
        List.mem_of_mem_take hsp
      have h2 : sp ∈ scoredCandidates existing nk nl := mem_sortByScoreDesc.mp h1
      obtain ⟨hfst, hpos, hmem, _⟩ := mem_scoredCandidates h2
      exact ⟨by rw [← hfst]; exact hpos, hmem⟩
  · unfold find_related_posts
    by_cases he : existing.isEmpty
    · simp [he]
    · rw [if_neg he]
      simp only [List.length_map]
      exact List.length_take_le _ _
  · unfold find_related_posts
    by_cases he : existing.isEmpty
    · simp [he]
    · rw [if_neg he]
      have hs : (sortByScoreDesc (scoredCandidates existing nk nl)).Sorted
          (fun a b => b.1 ≤ a.1) := sorted_sortByScoreDesc _
      have ht : ((sortByScoreDesc (scoredCandidates existing nk nl)).take max_links).Sorted
          (fun a b => b.1 ≤ a.1) := hs.sublist (List.take_sublist _ _)
      rw [List.Sorted, List.pairwise_map]
      refine ht.imp_of_mem ?_
      intro a b ha hb hab
      have ha2 := mem_scoredCandidates (mem_sortByScoreDesc.mp (List.mem_of_mem_take ha))
      have hb2 := mem_scoredCandidates (mem_sortByScoreDesc.mp (List.mem_of_mem_take hb))
      rw [← ha2.1, ← hb2.1]
      exact hab

/-- C7 witness: one extra shared label strictly raises the score, and a
concretely related post is returned with a positive score. -/
theorem C7_relatedness_ranking_witness :
    (relatedScore (extract_keywords relStopWords "Alpha Beta") (labelSet ["Tech"])
        ⟨"2", "Gamma", "u2", [], ""⟩ <
      relatedScore (extract_keywords relStopWords "Alpha Beta") (labelSet ["Tech"])
        ⟨"3", "Gamma", "u3", ["Tech"], ""⟩) ∧
    (0 < relatedScore (extract_keywords relStopWords "Alpha Beta") (labelSet ["Tech"])
        ⟨"1", "Alpha Beta", "u1", ["Tech"], ""⟩ ∧
      (⟨"1", "Alpha Beta", "u1", ["Tech"], ""⟩ : BlogPost) ∈
        [(⟨"1", "Alpha Beta", "u1", ["Tech"], ""⟩ : BlogPost),
         ⟨"2", "Gamma", "u2", [], ""⟩]) :=
  ⟨(C7_relatedness_ranking
      [⟨"1", "Alpha Beta", "u1", ["Tech"], ""⟩, ⟨"2", "Gamma", "u2", [], ""⟩]
      "Alpha Beta" ["Tech"] 3).1 ⟨"2", "Gamma", "u2", [], ""⟩
      ⟨"3", "Gamma", "u3", ["Tech"], ""⟩ (by decide) (by decide),
   (C7_relatedness_ranking
      [⟨"1", "Alpha Beta", "u1", ["Tech"], ""⟩, ⟨"2", "Gamma", "u2", [], ""⟩]
      "Alpha Beta" ["Tech"] 3).2.1 ⟨"1", "Alpha Beta", "u1", ["Tech"], ""⟩ (by decide)⟩

/-- C8: if some existing post's title equals the candidate's after lowercasing
and stripping, `is_duplicate` returns true, independently of any keyword
computation. -/
theorem C8_exact_match_fast_path (posts : List BlogPost) (title : String)
    (p : BlogPost) (hp : p ∈ posts)
    (he : pyStrip (pyLower title) = pyStrip (pyLower p.title)) :
    is_duplicate posts title = true := by
  apply is_duplicate_of_mem hp
  simp [postDuplicateCheck, exactTitleMatch, he]

/-- C8 witness: a case-and-whitespace variant of an existing title is flagged
even though its keyword overlap is trivially total. -/
theorem C8_exact_match_fast_path_witness :
    is_duplicate [⟨"1", "Alpha Beta", "u", [], ""⟩] " ALPHA BETA  " = true :=
  C8_exact_match_fast_path _ _ ⟨"1", "Alpha Beta", "u", [], ""⟩ (by simp) (by decide)

/-- C9: when either normalized keyword set is empty, the per-post comparison
degenerates to the exact-match test (the overlap ratio is never formed), and
a corpus of such posts with no exact match yields `false`. -/
theorem C9_empty_keyword_sets :
    (∀ (title : String) (p : BlogPost),
      extract_keywords dupStopWords title = ∅ ∨ extract_keywords dupStopWords p.title = ∅ →
      postDuplicateCheck title p = exactTitleMatch title p.title) ∧
    (∀ (posts : List BlogPost) (title : String),
      (∀ p ∈ posts, extract_keywords dupStopWords title = ∅ ∨
        extract_keywords dupStopWords p.title = ∅) →
      (∀ p ∈ posts, exactTitleMatch title p.title = false) →
      is_duplicate posts title = false) := by
  refine ⟨fun title p h => postDuplicateCheck_of_empty_keywords h, ?_⟩
  intro posts title hempty hexact
  apply is_duplicate_eq_false
  intro p hp
  rw [postDuplicateCheck_of_empty_keywords (hempty p hp), hexact p hp]

/-- C9 witness: a title made only of stop words is not flagged against a
different all-stop-word title. -/
theorem C9_empty_keyword_sets_witness :
    is_duplicate [⟨"1", "Of The And", "u", [], ""⟩] "The And For" = false :=
  C9_empty_keyword_sets.2 [⟨"1", "Of The And", "u", [], ""⟩] "The And For"
    (by intro p hp; simp at hp; subst hp; left; decide)
    (by intro p hp; simp at hp; subst hp; decide)

/-- C10: with an empty corpus snapshot (first run, missing blog id, or fetch
failure) no title is ever flagged as a duplicate. -/
theorem C10_empty_corpus_no_duplicate (title : String) :
    is_duplicate [] title = false := rfl

/-! ## Marker-scan lemmas (for C2) -/

theorem closeSplit_cons_close (cs : List Char) : closeSplit (']' :: cs) = some ([']'], cs) := by
  simp [closeSplit]

theorem closeSplit_cons_nl (cs : List Char) : closeSplit ('\n' :: cs) = none := by
  simp [closeSplit]

theorem closeSplit_cons_other {c : Char} (hc : c ≠ ']') (hn : c ≠ '\n') (cs : List Char) :
    closeSplit (c :: cs) = (closeSplit cs).map (fun p => (c :: p.1, p.2)) := by
  simp [closeSplit, hc, hn]

theorem closeSplit_eq_some {l m r : List Char} (h : closeSplit l = some (m, r)) :
    l = m ++ r ∧ ∃ mid, m = mid ++ [']'] ∧ ∀ c ∈ mid, c ≠ ']' ∧ c ≠ '\n' := by
  induction l generalizing m r with
  | nil => simp [closeSplit] at h
  | cons c cs ih =>
    by_cases hc : c = ']'
    · subst hc
      rw [closeSplit_cons_close] at h
      injection h with h
      injection h with h1 h2
      subst h1
      subst h2
      exact ⟨rfl, [], rfl, by simp⟩
    · by_cases hn : c = '\n'
      · subst hn
        rw [closeSplit_cons_nl] at h
        cases h
      · rw [closeSplit_cons_other hc hn] at h
        cases hcs : closeSplit cs with
        | none => rw [hcs] at h; cases h
        | some q =>
          rw [hcs, Option.map_some'] at h
          injection h with h
          injection h with h1 h2
          obtain ⟨hq, mid, hmid, hclean⟩ := ih (m := q.1) (r := q.2) (by rw [hcs])
          subst h2
          rw [← h1, hmid]
          refine ⟨by rw [hq, hmid]; simp, c :: mid, rfl, ?_⟩
          intro x hx
          rcases List.mem_cons.mp hx with rfl | hx
          · exact ⟨hc, hn⟩
          · exact hclean x hx

theorem closeSplit_clean_append {mid : List Char}
    (hclean : ∀ c ∈ mid, c ≠ ']' ∧ c ≠ '\n') (rest : List Char) :
    closeSplit (mid ++ ']' :: rest) = some (mid ++ [']'], rest) := by
  induction mid with
  | nil => simpa using closeSplit_cons_close rest
  | cons c cs ih =>
    have hc := hclean c (by simp)
    rw [List.cons_append, closeSplit_cons_other hc.1 hc.2,
      ih (fun x hx => hclean x (by simp [hx]))]
    simp

theorem closeSplit_append_none {u v : List Char} (h : closeSplit (u ++ v) = none)
    (hv : (closeSplit v).isSome = true) (v' : List Char) :
    closeSplit (u ++ v') = none := by
  induction u with
  | nil =>
    simp only [List.nil_append] at h
    rw [h] at hv
    cases hv
  | cons c cs ih =>
    by_cases hc : c = ']'
    · subst hc
      rw [List.cons_append, closeSplit_cons_close] at h
      cases h
    · by_cases hn : c = '\n'
      · subst hn
        rw [List.cons_append, closeSplit_cons_nl]
      · rw [List.cons_append, closeSplit_cons_other hc hn, Option.map_eq_none'] at h
        rw [List.cons_append, closeSplit_cons_other hc hn, Option.map_eq_none']
        exact ih h

theorem closeSplit_clean_prefix_none {w v : List Char}
    (hclean : ∀ c ∈ w, c ≠ ']' ∧ c ≠ '\n') :
    closeSplit (w ++ v) = none ↔ closeSplit v = none := by
  induction w with
  | nil => simp
  | cons c cs ih =>
    have hc := hclean c (by simp)
    rw [List.cons_append, closeSplit_cons_other hc.1 hc.2, Option.map_eq_none']
    exact ih (fun x hx => hclean x (by simp [hx]))

theorem markerOpen_clean : ∀ c ∈ markerOpen, c ≠ ']' ∧ c ≠ '\n' := by decide

theorem markerOpen_eq : markerOpen = '[' :: "IMAGE:".toList := by decide

theorem drop7_markerOpen_append (t : List Char) : (markerOpen ++ t).drop 7 = t := by
  have h := List.drop_left markerOpen t
  simpa [markerOpen] using h

theorem stripMarkers_nil : stripMarkers [] = [] := by
  rw [stripMarkers]

theorem findallMarkers_nil : findallMarkers [] = [] := by
  rw [findallMarkers]

theorem matchMarker_cons_ne {c : Char} (hc : c ≠ '[') (cs : List Char) :
    matchMarker (c :: cs) = none := by
  have hbe : ('[' == c) = false := beq_eq_false_iff_ne.mpr (Ne.symm hc)
  have hf : markerOpen.isPrefixOf (c :: cs) = false := by
    rw [markerOpen_eq,
      show ('[' :: "IMAGE:".toList).isPrefixOf (c :: cs) =
        ('[' == c && "IMAGE:".toList.isPrefixOf cs) from rfl]
    simp [hbe]
  unfold matchMarker
  rw [hf]
  simp

theorem stripMarkers_cons_some {c : Char} {cs : List Char} {p : List Char × List Char}
    (h : matchMarker (c :: cs) = some p) :
    stripMarkers (c :: cs) = stripMarkers p.2 := by
  rw [stripMarkers]
  split
  · next q hq =>
    rw [h] at hq
    injection hq with hq
    rw [hq]
  · next hn =>
    rw [h] at hn
    cases hn

theorem stripMarkers_cons_none {c : Char} {cs : List Char}
    (h : matchMarker (c :: cs) = none) :
    stripMarkers (c :: cs) = c :: stripMarkers cs := by
  rw [stripMarkers]
  split
  · next q hq => rw [h] at hq; cases hq
  · rfl

theorem findallMarkers_cons_some {c : Char} {cs : List Char} {p : List Char × List Char}
    (h : matchMarker (c :: cs) = some p) :
    findallMarkers (c :: cs) = p.1 :: findallMarkers p.2 := by
  rw [findallMarkers]
  split
  · next q hq =>
    rw [h] at hq
    injection hq with hq
    rw [hq]
  · next hn =>
    rw [h] at hn
    cases hn

theorem findallMarkers_cons_none {c : Char} {cs : List Char}
    (h : matchMarker (c :: cs) = none) :
    findallMarkers (c :: cs) = findallMarkers cs := by
  rw [findallMarkers]
  split
  · next q hq => rw [h] at hq; cases hq
  · rfl

theorem markerOpen_isPrefixOf_append (w : List Char) :
    markerOpen.isPrefixOf (markerOpen ++ w) = true :=
  List.isPrefixOf_iff_prefix.mpr (List.prefix_append _ _)

theorem matchMarker_eq_some {l m r : List Char} (h : matchMarker l = some (m, r)) :
    l = m ++ r ∧ ∃ mid, m = markerOpen ++ mid ++ [']'] ∧ ∀ c ∈ mid, c ≠ ']' ∧ c ≠ '\n' := by
  unfold matchMarker at h
  split at h
  · next hpre =>
    obtain ⟨t, ht⟩ := List.isPrefixOf_iff_prefix.mp hpre
    cases hcs : closeSplit (l.drop 7) with
    | none => rw [hcs] at h; cases h
    | some q =>
      rw [hcs, Option.map_some'] at h
      injection h with h
      injection h with h1 h2
      have hdrop : l.drop 7 = t := by
        rw [← ht]
        exact List.drop_left markerOpen t
      obtain ⟨hq, mid, hmid, hclean⟩ :=
        closeSplit_eq_some (show closeSplit (l.drop 7) = some (q.1, q.2) by rw [hcs])
      subst h1
      subst h2
      refine ⟨?_, mid, ?_, hclean⟩
      · rw [← ht]
        rw [hdrop] at hq
        rw [hq]
        simp
      · rw [hmid]
        simp
  · cases h

theorem matchMarker_marker_prefix {mid : List Char}
    (hclean : ∀ c ∈ mid, c ≠ ']' ∧ c ≠ '\n') (w : List Char) :
    matchMarker ((markerOpen ++ mid ++ [']']) ++ w) =
      some (markerOpen ++ mid ++ [']'], w) := by
  have hassoc : (markerOpen ++ mid ++ [']']) ++ w = markerOpen ++ (mid ++ ']' :: w) := by
    simp
  rw [hassoc]
  unfold matchMarker
  rw [if_pos (markerOpen_isPrefixOf_append _)]
  rw [show (markerOpen ++ (mid ++ ']' :: w)).drop 7 = mid ++ ']' :: w from
    List.drop_left markerOpen _]
  rw [closeSplit_clean_append hclean]
  simp

theorem hasMarker_cons (c : Char) (cs : List Char) :
    hasMarker (c :: cs) = ((matchMarker (c :: cs)).isSome || hasMarker cs) := rfl

theorem hasMarker_eq_false_of_findall_nil (l : List Char) :
    findallMarkers l = [] → hasMarker l = false := by
  induction l using findallMarkers.induct with
  | case1 => intro _; rfl
  | case2 c cs p hp ih =>
    intro h
    rw [findallMarkers_cons_some hp] at h
    cases h
  | case3 c cs hn ih =>
    intro h
    rw [findallMarkers_cons_none hn] at h
    rw [hasMarker_cons, hn, ih h]
    rfl

theorem bracketsOk_cons (c : Char) (cs : List Char) :
    bracketsOk (c :: cs) =
      ((c != '[' || "IMAGE:".toList.isPrefixOf cs) && bracketsOk cs) := rfl

theorem bracketsOk_tail {c : Char} {cs : List Char} (h : bracketsOk (c :: cs) = true) :
    bracketsOk cs = true := by
  rw [bracketsOk_cons, Bool.and_eq_true] at h
  exact h.2

theorem bracketsOk_head {cs : List Char} (h : bracketsOk ('[' :: cs) = true) :
    "IMAGE:".toList.isPrefixOf cs = true := by
  rw [bracketsOk_cons, Bool.and_eq_true] at h
  simpa using h.1

theorem bracketsOk_append_right {a b : List Char} (h : bracketsOk (a ++ b) = true) :
    bracketsOk b = true := by
  induction a with
  | nil => exact h
  | cons c cs ih => exact ih (bracketsOk_tail h)

theorem isPrefixOf_append_of_isPrefixOf {p a : List Char} (h : p.isPrefixOf a = true)
    (b : List Char) : p.isPrefixOf (a ++ b) = true := by
  rw [List.isPrefixOf_iff_prefix] at h ⊢
  exact h.trans (List.prefix_append _ _)

theorem bracketsOk_append {a b : List Char} (ha : bracketsOk a = true)
    (hb : bracketsOk b = true) : bracketsOk (a ++ b) = true := by
  induction a with
  | nil => exact hb
  | cons c cs ih =>
    have h1 := bracketsOk_tail ha
    show bracketsOk (c :: (cs ++ b)) = true
    rw [bracketsOk_cons, Bool.and_eq_true]
    refine ⟨?_, ih h1⟩
    rw [bracketsOk_cons, Bool.and_eq_true] at ha
    cases h2 : (c != '[') with
    | true => simp [h2]
    | false =>
      have hpre : "IMAGE:".toList.isPrefixOf cs = true := by
        have h3 := ha.1
        rw [h2] at h3
        simpa using h3
      have h4 := isPrefixOf_append_of_isPrefixOf hpre b
      rw [h4]
      simp

theorem bracketsOk_of_no_bracket {l : List Char} (h : ∀ c ∈ l, c ≠ '[') :
    bracketsOk l = true := by
  induction l with
  | nil => rfl
  | cons c cs ih =>
    rw [bracketsOk_cons, Bool.and_eq_true]
    refine ⟨?_, ih (fun x hx => h x (by simp [hx]))⟩
    have hc : c ≠ '[' := h c (by simp)
    simp [hc]

theorem imageTag_isPrefixOf_split {a b : List Char} {c : Char}
    (h : "IMAGE:".toList.isPrefixOf (a ++ c :: b) = true)
    (hc : c = '[' ∨ c = ']') :
    "IMAGE:".toList.isPrefixOf a = true := by
  rw [List.isPrefixOf_iff_prefix] at h ⊢
  obtain ⟨t, ht⟩ := h
  by_cases hlen : 6 ≤ a.length
  · have htake : ("IMAGE:".toList ++ t).take 6 = (a ++ c :: b).take 6 := by rw [ht]
    rw [List.take_append_of_le_length (by decide),
      List.take_append_of_le_length hlen] at htake
    rw [show ("IMAGE:".toList).take 6 = "IMAGE:".toList from rfl] at htake
    rw [htake]
    exact List.take_prefix 6 a
  · exfalso
    push_neg at hlen
    have hget : ("IMAGE:".toList ++ t).get? a.length = (a ++ c :: b).get? a.length := by
      rw [ht]
    rw [List.get?_append (by simpa using hlen),
      List.get?_append_right (le_refl _)] at hget
    simp only [Nat.sub_self, List.get?_cons_zero] at hget
    have hcmem : c ∈ "IMAGE:".toList := List.get?_mem hget
    have hall : ∀ x ∈ "IMAGE:".toList, x ≠ '[' ∧ x ≠ ']' := by decide
    rcases hc with rfl | rfl
    · exact (hall _ hcmem).1 rfl
    · exact (hall _ hcmem).2 rfl

theorem bracketsOk_left_of_append_bracket {s w : List Char}
    (h : bracketsOk (s ++ '[' :: w) = true) : bracketsOk s = true := by
  induction s with
  | nil => rfl
  | cons c cs ih =>
    have h2 := bracketsOk_tail (show bracketsOk (c :: (cs ++ '[' :: w)) = true from h)
    rw [bracketsOk_cons, Bool.and_eq_true]
    refine ⟨?_, ih h2⟩
    rw [show (c :: cs) ++ '[' :: w = c :: (cs ++ '[' :: w) from rfl,
      bracketsOk_cons, Bool.and_eq_true] at h
    cases hc : (c != '[') with
    | true => simp
    | false =>
      have h3 := h.1
      rw [hc] at h3
      simp only [Bool.false_or] at h3
      have h4 := imageTag_isPrefixOf_split h3 (Or.inl rfl)
      rw [h4]
      simp

theorem bracketsOk_left_of_append_close {a w : List Char}
    (h : bracketsOk (a ++ ']' :: w) = true) : bracketsOk (a ++ [']']) = true := by
  induction a with
  | nil => decide
  | cons c cs ih =>
    have h2 := bracketsOk_tail (show bracketsOk (c :: (cs ++ ']' :: w)) = true from h)
    show bracketsOk (c :: (cs ++ [']'])) = true
    rw [bracketsOk_cons, Bool.and_eq_true]
    refine ⟨?_, ih h2⟩
    rw [show (c :: cs) ++ ']' :: w = c :: (cs ++ ']' :: w) from rfl,
      bracketsOk_cons, Bool.and_eq_true] at h
    cases hc : (c != '[') with
    | true => simp
    | false =>
      have h3 := h.1
      rw [hc] at h3
      simp only [Bool.false_or] at h3
      have h4 := imageTag_isPrefixOf_split h3 (Or.inr rfl)
      have h5 := isPrefixOf_append_of_isPrefixOf h4 [']']
      rw [h5]
      simp

theorem closeSplit_stripMarkers_none (l : List Char) :
    closeSplit l = none → closeSplit (stripMarkers l) = none := by
  induction l using stripMarkers.induct with
  | case1 => intro h; rw [stripMarkers_nil]; exact h
  | case2 c cs p hp ih =>
    intro h
    exfalso
    obtain ⟨heq, mid, hm, hclean⟩ :=
      matchMarker_eq_some (show matchMarker (c :: cs) = some (p.1, p.2) by rw [hp])
    rw [heq, hm] at h
    rw [show (markerOpen ++ mid ++ [']']) ++ p.2 = (markerOpen ++ mid) ++ ']' :: p.2 by
      simp] at h
    rw [closeSplit_clean_append (fun x hx => by
      rcases List.mem_append.mp hx with hx | hx
      · exact markerOpen_clean x hx
      · exact hclean x hx)] at h
    cases h
  | case3 c cs hn ih =>
    intro h
    rw [stripMarkers_cons_none hn]
    by_cases hc : c = ']'
    · subst hc
      rw [closeSplit_cons_close] at h
      cases h
    · by_cases hnl : c = '\n'
      · subst hnl
        rw [closeSplit_cons_nl]
      · rw [closeSplit_cons_other hc hnl, Option.map_eq_none'] at h
        rw [closeSplit_cons_other hc hnl, Option.map_eq_none']
        exact ih h

theorem stripMarkers_append_no_bracket {w : List Char} (hw : ∀ c ∈ w, c ≠ '[')
    (v : List Char) : stripMarkers (w ++ v) = w ++ stripMarkers v := by
  induction w with
  | nil => rfl
  | cons c cs ih =>
    have hc : c ≠ '[' := hw c (by simp)
    rw [List.cons_append, stripMarkers_cons_none (matchMarker_cons_ne hc _),
      ih (fun x hx => hw x (by simp [hx]))]
    rfl

theorem hasMarker_stripMarkers (l : List Char) :
    bracketsOk l = true → hasMarker (stripMarkers l) = false := by
  induction l using stripMarkers.induct with
  | case1 => intro _; rw [stripMarkers_nil]; rfl
  | case2 c cs p hp ih =>
    intro hb
    rw [stripMarkers_cons_some hp]
    obtain ⟨heq, mid, hm, hclean⟩ :=
      matchMarker_eq_some (show matchMarker (c :: cs) = some (p.1, p.2) by rw [hp])
    exact ih (bracketsOk_append_right (heq ▸ hb))
  | case3 c cs hn ih =>
    intro hb
    rw [stripMarkers_cons_none hn, hasMarker_cons]
    have hcs := bracketsOk_tail hb
    rw [ih hcs]
    by_cases hc : c = '['
    · subst hc
      have hpre := bracketsOk_head hb
      obtain ⟨t, ht⟩ := List.isPrefixOf_iff_prefix.mp hpre
      have hclose : closeSplit t = none := by
        unfold matchMarker at hn
        rw [if_pos (show markerOpen.isPrefixOf ('[' :: cs) = true by
          rw [markerOpen_eq,
            show ('[' :: "IMAGE:".toList).isPrefixOf ('[' :: cs) =
              (('[' == '[') && "IMAGE:".toList.isPrefixOf cs) from rfl]
          rw [hpre]
          decide)] at hn
        rw [Option.map_eq_none'] at hn
        have hd : ('[' :: cs).drop 7 = t := by
          rw [← ht]
          rw [show ('[' : Char) :: ("IMAGE:".toList ++ t) = markerOpen ++ t by
            rw [markerOpen_eq]; rfl]
          exact drop7_markerOpen_append t
        rw [hd] at hn
        exact hn
      have hout : stripMarkers cs = "IMAGE:".toList ++ stripMarkers t := by
        rw [← ht, stripMarkers_append_no_bracket (by decide)]
      rw [hout]
      have hmm : matchMarker ('[' :: ("IMAGE:".toList ++ stripMarkers t)) = none := by
        unfold matchMarker
        rw [if_pos (show markerOpen.isPrefixOf
            ('[' :: ("IMAGE:".toList ++ stripMarkers t)) = true by
          rw [show ('[' : Char) :: ("IMAGE:".toList ++ stripMarkers t) =
            markerOpen ++ stripMarkers t by rw [markerOpen_eq]; rfl]
          exact markerOpen_isPrefixOf_append _)]
        rw [show ('[' :: ("IMAGE:".toList ++ stripMarkers t)).drop 7 = stripMarkers t by
          rw [show ('[' : Char) :: ("IMAGE:".toList ++ stripMarkers t) =
            markerOpen ++ stripMarkers t by rw [markerOpen_eq]; rfl]
          exact drop7_markerOpen_append _]
        rw [closeSplit_stripMarkers_none t hclose]
        rfl
      rw [hmm]
      rfl
    · rw [matchMarker_cons_ne hc]
      rfl

theorem replaceAll_nil (pat repl : List Char) : replaceAll pat repl [] = [] := by
  rw [replaceAll]

theorem replaceAll_cons_pos {pat : List Char} (repl : List Char) {c : Char} {cs : List Char}
    (h : pat.isPrefixOf (c :: cs) = true) (hne : pat ≠ []) :
    replaceAll pat repl (c :: cs) =
      repl ++ replaceAll pat repl ((c :: cs).drop pat.length) := by
  rw [replaceAll, if_pos ⟨h, hne⟩]

theorem replaceAll_cons_neg {pat : List Char} (repl : List Char) {c : Char} {cs : List Char}
    (h : ¬(pat.isPrefixOf (c :: cs) = true ∧ pat ≠ [])) :
    replaceAll pat repl (c :: cs) = c :: replaceAll pat repl cs := by
  rw [replaceAll, if_neg h]

theorem replaceAll_markerOpen_no_bracket :
    ∀ (m : List Char), bracketsOk m = true → ∀ c ∈ replaceAll markerOpen [] m, c ≠ '[' := by
  refine replaceAll.induct markerOpen []
    (fun m => bracketsOk m = true → ∀ c ∈ replaceAll markerOpen [] m, c ≠ '[') ?_ ?_ ?_
  · intro _ c hc
    rw [replaceAll_nil] at hc
    cases hc
  · intro c cs hcond ihdrop hb x hx
    rw [replaceAll_cons_pos [] hcond.1 hcond.2] at hx
    simp only [List.nil_append] at hx
    obtain ⟨t, ht⟩ := List.isPrefixOf_iff_prefix.mp hcond.1
    have hdrop : (c :: cs).drop markerOpen.length = t := by
      rw [← ht]
      exact List.drop_left _ _
    rw [hdrop] at ihdrop hx
    exact ihdrop (bracketsOk_append_right (ht ▸ hb)) x hx
  · intro c cs hncond ih hb x hx
    rw [replaceAll_cons_neg [] hncond] at hx
    rcases List.mem_cons.mp hx with rfl | hx
    · intro hceq
      subst hceq
      have hpre := bracketsOk_head hb
      apply hncond
      refine ⟨?_, by decide⟩
      rw [markerOpen_eq,
        show ('[' :: "IMAGE:".toList).isPrefixOf ('[' :: cs) =
          (('[' == '[') && "IMAGE:".toList.isPrefixOf cs) from rfl, hpre]
      decide
    · exact ih (bracketsOk_tail hb) x hx

theorem replaceAll_close_no_close :
    ∀ (l : List Char), ∀ c ∈ replaceAll [']'] [] l, c ≠ ']' := by
  refine replaceAll.induct [']'] []
    (fun l => ∀ c ∈ replaceAll [']'] [] l, c ≠ ']') ?_ ?_ ?_
  · intro c hc
    rw [replaceAll_nil] at hc
    cases hc
  · intro c cs hcond ih x hx
    rw [replaceAll_cons_pos [] hcond.1 hcond.2] at hx
    simp only [List.nil_append] at hx
    exact ih x hx
  · intro c cs hncond ih x hx
    rw [replaceAll_cons_neg [] hncond] at hx
    rcases List.mem_cons.mp hx with rfl | hx
    · intro hceq
      subst hceq
      apply hncond
      refine ⟨?_, by decide⟩
      rw [List.isPrefixOf_iff_prefix]
      exact ⟨cs, rfl⟩
    · exact ih x hx

theorem mem_replaceAll_empty (pat : List Char) :
    ∀ (l : List Char), ∀ c ∈ replaceAll pat [] l, c ∈ l := by
  refine replaceAll.induct pat [] (fun l => ∀ c ∈ replaceAll pat [] l, c ∈ l) ?_ ?_ ?_
  · intro c hc
    rw [replaceAll_nil] at hc
    cases hc
  · intro c cs hcond ih x hx
    rw [replaceAll_cons_pos [] hcond.1 hcond.2] at hx
    simp only [List.nil_append] at hx
    exact List.mem_of_mem_drop (ih x hx)
  · intro c cs hncond ih x hx
    rw [replaceAll_cons_neg [] hncond] at hx
    rcases List.mem_cons.mp hx with rfl | hx
    · simp
    · simp [ih x hx]

theorem mem_dropWhile {p : Char → Bool} {l : List Char} :
    ∀ c ∈ l.dropWhile p, c ∈ l := by
  induction l with
  | nil => intro c hc; cases hc
  | cons x xs ih =>
    intro c hc
    rw [List.dropWhile_cons] at hc
    by_cases hx : p x = true
    · rw [if_pos hx] at hc
      exact List.mem_cons_of_mem _ (ih c hc)
    · rw [if_neg hx] at hc
      exact hc

theorem pyStripList_subset {l : List Char} : ∀ c ∈ pyStripList l, c ∈ l := by
  intro c hc
  unfold pyStripList at hc
  rw [List.mem_reverse] at hc
  have h1 := mem_dropWhile c hc
  rw [List.mem_reverse] at h1
  exact mem_dropWhile c h1

theorem markerQuery_no_brackets {m : List Char} (hb : bracketsOk m = true) :
    ∀ c ∈ markerQuery m, c ≠ '[' ∧ c ≠ ']' := by
  intro c hc
  unfold markerQuery at hc
  have h1 : c ∈ replaceAll [']'] [] (replaceAll markerOpen [] m) := pyStripList_subset c hc
  constructor
  · have h2 := mem_replaceAll_empty [']'] _ c h1
    exact replaceAll_markerOpen_no_bracket m hb c h2
  · exact replaceAll_close_no_close _ c h1

theorem imgHtml_no_bracket {query : List Char} {d : ImageData}
    (hq : ∀ c ∈ query, c ≠ '[') (hu : ∀ c ∈ d.url, c ≠ '[')
    (hn : ∀ c ∈ d.userName, c ≠ '[') (hs : ∀ c ∈ d.userUsername, c ≠ '[') :
    ∀ c ∈ imgHtml query d, c ≠ '[' := by
  have hseg1 : ∀ c ∈ imgHtmlSeg1, c ≠ '[' := by decide
  have hseg2 : ∀ c ∈ imgHtmlSeg2, c ≠ '[' := by decide
  have hseg3 : ∀ c ∈ imgHtmlSeg3, c ≠ '[' := by decide
  have hseg4 : ∀ c ∈ imgHtmlSeg4, c ≠ '[' := by decide
  have hseg5 : ∀ c ∈ imgHtmlSeg5, c ≠ '[' := by decide
  intro c hc
  unfold imgHtml at hc
  simp only [List.mem_append] at hc
  rcases hc with ((((((((h | h) | h) | h) | h) | h) | h) | h) | h)
  · exact hseg1 c h
  · exact hu c h
  · exact hseg2 c h
  · exact hq c h
  · exact hseg3 c h
  · exact hs c h
  · exact hseg4 c h
  · exact hn c h
  · exact hseg5 c h

theorem findallMarkers_append_no_bracket {w : List Char} (hw : ∀ c ∈ w, c ≠ '[')
    (t : List Char) : findallMarkers (w ++ t) = findallMarkers t := by
  induction w with
  | nil => rfl
  | cons c cs ih =>
    have hc : c ≠ '[' := hw c (by simp)
    rw [List.cons_append, findallMarkers_cons_none (matchMarker_cons_ne hc _),
      ih (fun x hx => hw x (by simp [hx]))]

theorem findallMarkers_append_scan_none {s X : List Char}
    (h : ∀ i < s.length, matchMarker (s.drop i ++ X) = none) :
    findallMarkers (s ++ X) = findallMarkers X := by
  induction s with
  | nil => rfl
  | cons c cs ih =>
    have h0 := h 0 (by simp)
    simp only [List.drop_zero] at h0
    rw [show (c :: cs) ++ X = c :: (cs ++ X) from rfl] at h0 ⊢
    rw [findallMarkers_cons_none h0]
    exact ih (fun i hi => by
      have h2 := h (i + 1) (by simpa using Nat.succ_lt_succ hi)
      simpa using h2)

theorem findallMarkers_cons_structure :
    ∀ (content m : List Char) (rest : List (List Char)),
      findallMarkers content = m :: rest →
      ∃ s t, content = s ++ m ++ t ∧
        (∀ i < s.length, matchMarker (s.drop i ++ m ++ t) = none) ∧
        matchMarker (m ++ t) = some (m, t) ∧
        findallMarkers t = rest := by
  intro content
  induction content using findallMarkers.induct with
  | case1 =>
    intro m rest h
    rw [findallMarkers_nil] at h
    cases h
  | case2 c cs p hp ih =>
    intro m rest h
    rw [findallMarkers_cons_some hp] at h
    injection h with h1 h2
    obtain ⟨heq, mid, hm, hclean⟩ :=
      matchMarker_eq_some (show matchMarker (c :: cs) = some (p.1, p.2) by rw [hp])
    subst h1
    subst h2
    refine ⟨[], p.2, by simpa using heq, by intro i hi; simp at hi, ?_, rfl⟩
    rw [← heq]
    exact hp
  | case3 c cs hn ih =>
    intro m rest h
    rw [findallMarkers_cons_none hn] at h
    obtain ⟨s, t, heq, hscan, hmm, hrest⟩ := ih m rest h
    refine ⟨c :: s, t, ?_, ?_, hmm, hrest⟩
    · rw [show (c :: s) ++ m ++ t = c :: (s ++ m ++ t) from rfl, ← heq]
    · intro i hi
      cases i with
      | zero =>
        simp only [List.drop_zero]
        rw [show (c :: s) ++ m ++ t = c :: (s ++ m ++ t) from rfl, ← heq]
        exact hn
      | succ j =>
        have hj : j < s.length := by simpa using hi
        simpa using hscan j hj

theorem replaceFirst_append {m : List Char} (hm : m ≠ []) (repl : List Char) :
    ∀ (s t : List Char),
      (∀ i < s.length, m.isPrefixOf (s.drop i ++ m ++ t) = false) →
      replaceFirst m repl (s ++ m ++ t) = s ++ repl ++ t := by
  intro s
  induction s with
  | nil =>
    intro t _
    cases m with
    | nil => exact absurd rfl hm
    | cons a as =>
      rw [show ([] : List Char) ++ (a :: as) ++ t = a :: (as ++ t) from by simp]
      simp only [replaceFirst]
      rw [if_pos (by
        rw [List.isPrefixOf_iff_prefix]
        exact ⟨t, by simp⟩)]
      rw [show a :: (as ++ t) = (a :: as) ++ t from rfl,
        show ((a :: as) ++ t).drop (a :: as).length = t from List.drop_left _ _]
      simp
  | cons c s' ih =>
    intro t hno
    have h0 := hno 0 (by simp)
    simp only [List.drop_zero] at h0
    rw [show (c :: s') ++ m ++ t = c :: (s' ++ m ++ t) from rfl,
      show (c :: s') ++ repl ++ t = c :: (s' ++ repl ++ t) from rfl]
    simp only [replaceFirst]
    rw [if_neg (show ¬(m.isPrefixOf (c :: (s' ++ m ++ t)) = true) from by
      rw [show c :: (s' ++ m ++ t) = (c :: s') ++ m ++ t from rfl, h0]
      simp)]
    rw [ih t (fun i hi => by
      have h2 := hno (i + 1) (by simpa using Nat.succ_lt_succ hi)
      simpa using h2)]

theorem matchMarker_scan_none_transfer {u m mid t : List Char} (repl : List Char)
    (hu : u ≠ [])
    (hbOk : bracketsOk (u ++ m ++ t) = true)
    (hm : m = markerOpen ++ mid ++ [']'])
    (hclean : ∀ c ∈ mid, c ≠ ']' ∧ c ≠ '\n')
    (hnone : matchMarker (u ++ m ++ t) = none) :
    matchMarker (u ++ repl ++ t) = none := by
  cases u with
  | nil => exact absurd rfl hu
  | cons c u' =>
    by_cases hc : c = '['
    · subst hc
      have hb2 : bracketsOk ('[' :: (u' ++ m ++ t)) = true := hbOk
      have hpre0 := bracketsOk_head hb2
      have hsplit : u' ++ m ++ t = u' ++ '[' :: (("IMAGE:".toList ++ mid ++ [']']) ++ t) := by
        rw [hm, markerOpen_eq]
        simp
      rw [hsplit] at hpre0
      have hpre1 : "IMAGE:".toList.isPrefixOf u' = true :=
        imageTag_isPrefixOf_split hpre0 (Or.inl rfl)
      obtain ⟨u2, hu2⟩ := List.isPrefixOf_iff_prefix.mp hpre1
      have hue : ('[' : Char) :: u' = markerOpen ++ u2 := by
        rw [markerOpen_eq, show ('[' :: "IMAGE:".toList) ++ u2 =
          '[' :: ("IMAGE:".toList ++ u2) from rfl, hu2]
      have heqm : ('[' :: u') ++ m ++ t = markerOpen ++ (u2 ++ (m ++ t)) := by
        rw [hue]
        simp
      have heqr : ('[' :: u') ++ repl ++ t = markerOpen ++ (u2 ++ (repl ++ t)) := by
        rw [hue]
        simp
      have hnone2 : closeSplit (u2 ++ (m ++ t)) = none := by
        unfold matchMarker at hnone
        rw [if_pos (show markerOpen.isPrefixOf (('[' :: u') ++ m ++ t) = true from by
          rw [heqm]
          exact markerOpen_isPrefixOf_append _)] at hnone
        rw [Option.map_eq_none'] at hnone
        rw [show (('[' :: u') ++ m ++ t).drop 7 = u2 ++ (m ++ t) from by
          rw [heqm]
          exact drop7_markerOpen_append _] at hnone
        exact hnone
      have hsome : (closeSplit (m ++ t)).isSome = true := by
        rw [hm, show (markerOpen ++ mid ++ [']']) ++ t = (markerOpen ++ mid) ++ ']' :: t from
          by simp]
        rw [closeSplit_clean_append (fun x hx => by
          rcases List.mem_append.mp hx with hx | hx
          · exact markerOpen_clean x hx
          · exact hclean x hx)]
        rfl
      have hnone3 : closeSplit (u2 ++ (repl ++ t)) = none :=
        closeSplit_append_none hnone2 hsome _
      unfold matchMarker
      rw [if_pos (show markerOpen.isPrefixOf (('[' :: u') ++ repl ++ t) = true from by
        rw [heqr]
        exact markerOpen_isPrefixOf_append _)]
      rw [show (('[' :: u') ++ repl ++ t).drop 7 = u2 ++ (repl ++ t) from by
        rw [heqr]
        exact drop7_markerOpen_append _]
      rw [hnone3]
      rfl
    · rw [show (c :: u') ++ repl ++ t = c :: (u' ++ repl ++ t) from rfl]
      exact matchMarker_cons_ne hc _

theorem step5Loop_no_marker :
    ∀ (ms : List (List Char)) (fetch : Nat → Option ImageData) (i : Nat)
      (content : List Char),
      bracketsOk content = true →
      findallMarkers content = ms →
      (∀ j d, fetch j = some d → (∀ c ∈ d.url, c ≠ '[') ∧
        (∀ c ∈ d.userName, c ≠ '[') ∧ (∀ c ∈ d.userUsername, c ≠ '[')) →
      hasMarker (step5Loop fetch ms i content) = false := by
  intro ms
  induction ms with
  | nil =>
    intro fetch i content hb hf hok
    simp only [step5Loop]
    exact hasMarker_eq_false_of_findall_nil content hf
  | cons m rest ih =>
    intro fetch i content hb hf hok
    obtain ⟨s, t, heq, hscan, hmm, hrest⟩ := findallMarkers_cons_structure content m rest hf
    obtain ⟨_, mid, hm, hclean⟩ := matchMarker_eq_some hmm
    subst heq
    have hmne : m ≠ [] := by rw [hm]; simp
    have hbm_t : bracketsOk (m ++ t) = true := by
      have hx : s ++ m ++ t = s ++ (m ++ t) := by simp
      exact bracketsOk_append_right (hx ▸ hb)
    have hbt : bracketsOk t = true := by
      have hx : s ++ m ++ t = (s ++ m) ++ t := by simp
      exact bracketsOk_append_right (hx ▸ hb)
    have hbs : bracketsOk s = true := by
      have hmc : m = '[' :: ("IMAGE:".toList ++ mid ++ [']']) := by
        rw [hm, markerOpen_eq]
        simp
      have hx : s ++ m ++ t = s ++ '[' :: (("IMAGE:".toList ++ mid ++ [']']) ++ t) := by
        rw [hmc]
        simp
      exact bracketsOk_left_of_append_bracket (hx ▸ hb)
    have hbm : bracketsOk m = true := by
      have h1 : m ++ t = (markerOpen ++ mid) ++ ']' :: t := by
        rw [hm]
        simp
      have h2 := bracketsOk_left_of_append_close (h1 ▸ hbm_t)
      rw [hm, show markerOpen ++ mid ++ [']'] = (markerOpen ++ mid) ++ [']'] from by simp]
      exact h2
    have hprefix_abs : ∀ j < s.length, m.isPrefixOf (s.drop j ++ m ++ t) = false := by
      intro j hj
      cases hcon : m.isPrefixOf (s.drop j ++ m ++ t) with
      | false => rfl
      | true =>
        exfalso
        obtain ⟨w, hw⟩ := List.isPrefixOf_iff_prefix.mp hcon
        have hmn := hscan j hj
        rw [← hw, hm, matchMarker_marker_prefix hclean w] at hmn
        cases hmn
    have main : ∀ (repl : List Char), (∀ c ∈ repl, c ≠ '[') →
        hasMarker (step5Loop fetch rest (i + 1) (replaceFirst m repl (s ++ m ++ t))) = false := by
      intro repl hrepl
      rw [replaceFirst_append hmne repl s t hprefix_abs]
      have hbrepl : bracketsOk repl = true := bracketsOk_of_no_bracket hrepl
      have hbnew : bracketsOk (s ++ repl ++ t) = true :=
        bracketsOk_append (bracketsOk_append hbs hbrepl) hbt
      have hscan2 : ∀ j < s.length, matchMarker (s.drop j ++ (repl ++ t)) = none := by
        intro j hj
        have hu_ne : s.drop j ≠ [] := by
          intro hnil
          have hlen := congrArg List.length hnil
          simp only [List.length_drop, List.length_nil] at hlen
          omega
        have hbu : bracketsOk (s.drop j ++ m ++ t) = true := by
          have h1 : s.take j ++ s.drop j = s := List.take_append_drop j s
          have hdec : s ++ m ++ t = s.take j ++ (s.drop j ++ m ++ t) :=
            calc s ++ m ++ t = (s.take j ++ s.drop j) ++ m ++ t := by rw [h1]
              _ = s.take j ++ (s.drop j ++ m ++ t) := by
                simp only [List.append_assoc]
          exact bracketsOk_append_right (hdec ▸ hb)
        have htr := matchMarker_scan_none_transfer repl hu_ne hbu hm hclean (hscan j hj)
        rw [← List.append_assoc]
        exact htr
      have hfnew : findallMarkers (s ++ repl ++ t) = rest := by
        rw [show s ++ repl ++ t = s ++ (repl ++ t) from by simp,
          findallMarkers_append_scan_none hscan2,
          findallMarkers_append_no_bracket hrepl t]
        exact hrest
      exact ih fetch (i + 1) (s ++ repl ++ t) hbnew hfnew hok
    simp only [step5Loop]
    rcases hfetch : fetch i with _ | d
    · exact main [] (by intro c hc; cases hc)
    · refine main (imgHtml (markerQuery m) d) ?_
      obtain ⟨h1, h2, h3⟩ := hok i d hfetch
      exact imgHtml_no_bracket (fun c hc => (markerQuery_no_brackets hbm c hc).1) h1 h2 h3

/-- C2 counterexample: on the body `[IMA[IMAGE:x]GE: y]` the resolver removes
the marker `[IMAGE:x]` and thereby splices the surrounding text into the new
literal marker `[IMAGE: y]`, which remains in the output — in the
no-capability stripping path and in the keyed path with a failed search
alike.  This refutes the claim that no substring matching the marker pattern
is ever left. -/
theorem C2_marker_residue_counterexample :
    hasMarker (step_5_add_images false (fun _ => none)
      ("[IMA[IMAGE:x]GE: y]".toList)) = true ∧
    hasMarker (step_5_add_images true (fun _ => none)
      ("[IMA[IMAGE:x]GE: y]".toList)) = true := by
  constructor
  · simp [step_5_add_images, stripMarkers, matchMarker, closeSplit, markerOpen, hasMarker]
  · simp [step_5_add_images, step5Loop, findallMarkers, replaceFirst, matchMarker,
      closeSplit, markerOpen, hasMarker]

/-- C2 amended: provided every `[` in the input body opens the literal marker
prefix `[IMAGE:` (so that removals cannot splice new markers together) and
the fields of every fetched image result contain no `[`, the body returned by
`step_5_add_images` contains no substring matching the marker pattern — both
without a search key (every marker stripped) and with one (each marker
replaced by markup on success or removed on failure). -/
theorem C2_no_marker_left_amended :
    ∀ (content : List Char) (fetch : Nat → Option ImageData),
      bracketsOk content = true →
      (∀ j d, fetch j = some d → (∀ c ∈ d.url, c ≠ '[') ∧
        (∀ c ∈ d.userName, c ≠ '[') ∧ (∀ c ∈ d.userUsername, c ≠ '[')) →
      hasMarker (step_5_add_images false fetch content) = false ∧
      hasMarker (step_5_add_images true fetch content) = false := by
  intro content fetch hb hok
  constructor
  · show hasMarker (stripMarkers content) = false
    exact hasMarker_stripMarkers content hb
  · show hasMarker (step5Loop fetch (findallMarkers content) 0 content) = false
    exact step5Loop_no_marker (findallMarkers content) fetch 0 content hb rfl hok

/-- C2 amended witness: a well-formed body with one marker is fully resolved
in both paths. -/
theorem C2_no_marker_left_amended_witness :
    hasMarker (step_5_add_images false (fun _ => none)
      ("Intro [IMAGE:cat photo] outro".toList)) = false ∧
    hasMarker (step_5_add_images true (fun _ => none)
      ("Intro [IMAGE:cat photo] outro".toList)) = false :=
  C2_no_marker_left_amended ("Intro [IMAGE:cat photo] outro".toList) (fun _ => none)
    (by decide) (by intro j d h; cases h)
